import Mathlib

/-!
Verification of the bustub extendible hash index against its
natural-language specification.

The development shallowly embeds the C++ sources:

* `src/storage/page/hash_table_bucket_page.cpp` — the bit-packed bucket
  page (`BucketPage` below).  Bitmaps are lists of bytes (`Nat` values,
  kept below 256 on all states we build), MSB-first within a byte, exactly
  as in the source (`occupied_[i/8] & (1 << (7 - i%8))`).
* `src/container/hash/extendible_hash_table.cpp` — the extendible hash
  table (`EHT` namespace): directory, Insert/SplitInsert, Remove/Merge,
  GetValue.  The table is modelled sequentially (latches dropped); the
  buffer pool is abstracted to a page map plus a fresh-page counter, and
  every operation additionally returns the list of FetchPage/NewPage/
  UnpinPage/DeletePage calls it performed, so that pin accounting can be
  checked.  The C++ `assert` is modelled as executing its argument and
  recording pure assertion conditions in an `ok` flag (release builds
  would skip the whole statement; the intent of the code is clearly the
  debug behaviour where the wrapped calls do run).
* the `LRUReplacer` from `src/buffer/lru_replacer.cpp` (`LRUReplacer`
  below), collapsing the C++ list+iterator-map pair to the list it
  represents.

The directory page implementation (`HashTableDirectoryPage`) is not among
the sources; its operations are modelled from the spec (§4.5, §4.6.2) and
carry `Modelled from the spec:` doc comments.

The key and value types, the hash function and the bucket capacity
`BUCKET_ARRAY_SIZE` (`B` below, derived from the configurable page size)
are parameters, as in the templated source.
-/

namespace Bustub

/-! ## Byte-level bit operations (MSB-first, as in the source) -/

/-- Test bit `7 - (idx % 8)` of a byte: `b & (1 << (7 - idx % 8))`. -/
def bitGet (b : Nat) (idx : Nat) : Bool :=
  b &&& (1 <<< (7 - idx % 8)) != 0

/-- Set bit `7 - (idx % 8)` of a byte: `b |= (1 << (7 - idx % 8))`. -/
def bitSet (b : Nat) (idx : Nat) : Nat :=
  b ||| (1 <<< (7 - idx % 8))

/-- Clear bit `7 - (idx % 8)` of a byte: `b &= ~(1 << (7 - idx % 8))`,
with the complement taken within the byte. -/
def bitClear (b : Nat) (idx : Nat) : Nat :=
  b &&& (0xff ^^^ (1 <<< (7 - idx % 8)))

/-! ## Bucket page (`HASH_TABLE_BUCKET_TYPE`) -/

/-- The bucket page: `occupied_` and `readable_` byte arrays of length
`(BUCKET_ARRAY_SIZE - 1) / 8 + 1` and the `array_` of mappings of length
`BUCKET_ARRAY_SIZE`. -/
structure BucketPage (K V : Type) where
  occupied : List Nat
  readable : List Nat
  array : List (K × V)
deriving DecidableEq

/-- Number of bitmap bytes for capacity `B`: `(BUCKET_ARRAY_SIZE-1)/8+1`. -/
def nbytes (B : Nat) : Nat := (B - 1) / 8 + 1

variable {K V : Type} [DecidableEq K] [DecidableEq V] [Inhabited K] [Inhabited V]

/-- `IsOccupied(bucket_idx)`. -/
def BucketPage.IsOccupied (p : BucketPage K V) (i : Nat) : Bool :=
  bitGet (p.occupied.getD (i / 8) 0) i

/-- `IsReadable(bucket_idx)`. -/
def BucketPage.IsReadable (p : BucketPage K V) (i : Nat) : Bool :=
  bitGet (p.readable.getD (i / 8) 0) i

/-- `SetOccupied(bucket_idx)`. -/
def BucketPage.SetOccupied (p : BucketPage K V) (i : Nat) : BucketPage K V :=
  { p with occupied := p.occupied.set (i / 8) (bitSet (p.occupied.getD (i / 8) 0) i) }

/-- `SetReadable(bucket_idx)`. -/
def BucketPage.SetReadable (p : BucketPage K V) (i : Nat) : BucketPage K V :=
  { p with readable := p.readable.set (i / 8) (bitSet (p.readable.getD (i / 8) 0) i) }

/-- `ReSetReadable(bucket_idx)`. -/
def BucketPage.ReSetReadable (p : BucketPage K V) (i : Nat) : BucketPage K V :=
  { p with readable := p.readable.set (i / 8) (bitClear (p.readable.getD (i / 8) 0) i) }

/-- `KeyAt(bucket_idx)`. -/
def BucketPage.KeyAt (p : BucketPage K V) (i : Nat) : K := (p.array.getD i default).1

/-- `ValueAt(bucket_idx)`. -/
def BucketPage.ValueAt (p : BucketPage K V) (i : Nat) : V := (p.array.getD i default).2

/-- `GetValue(key, cmp, result)`: the values appended to `result`, in
increasing slot order; the returned `bool` is `result->size() > size`,
i.e. the list being nonempty. -/
def BucketPage.GetValue (B : Nat) (p : BucketPage K V) (k : K) : List V :=
  (List.range B).filterMap fun i =>
    if p.IsReadable i ∧ p.KeyAt i = k then some (p.ValueAt i) else none

/-- The scan loop of `Insert` from
`src/storage/page/hash_table_bucket_page.cpp`: walk the slots carrying
`slot` (the first non-readable index seen so far, C++ `int64_t slot = -1`);
a readable duplicate returns `false` immediately (`none` here); reaching
the end yields the recorded slot. -/
def insertScan (p : BucketPage K V) (k : K) (v : V) :
    List Nat → Option Nat → Option (Option Nat)
  | [], slot => some slot
  | i :: rest, slot =>
    if p.IsReadable i ∧ p.KeyAt i = k ∧ v = p.ValueAt i then none
    else if ¬ p.IsReadable i ∧ slot = none then insertScan p k v rest (some i)
    else insertScan p k v rest slot

/-- `Insert(key, value, cmp)` (the named source file's variant, which
scans all `BUCKET_ARRAY_SIZE` slots). -/
def BucketPage.Insert (B : Nat) (p : BucketPage K V) (k : K) (v : V) :
    Bool × BucketPage K V :=
  match insertScan p k v (List.range B) none with
  | none => (false, p)
  | some none => (false, p)
  | some (some s) =>
    (true, (({ p with array := p.array.set s (k, v) }).SetOccupied s).SetReadable s)

/-- The scan loop of `Remove`: first readable slot matching key and value. -/
def removeScan (p : BucketPage K V) (k : K) (v : V) : List Nat → Option Nat
  | [] => none
  | i :: rest =>
    if p.IsReadable i ∧ p.KeyAt i = k ∧ v = p.ValueAt i then some i
    else removeScan p k v rest

/-- `Remove(key, value, cmp)` (named source variant, scanning all slots). -/
def BucketPage.Remove (B : Nat) (p : BucketPage K V) (k : K) (v : V) :
    Bool × BucketPage K V :=
  match removeScan p k v (List.range B) with
  | some i => (true, p.ReSetReadable i)
  | none => (false, p)

/-- `IsFull()`: every byte of `readable_` satisfies `(r & 0xff) == 0xff`. -/
def BucketPage.IsFull (p : BucketPage K V) : Bool :=
  p.readable.all fun r => r &&& 0xff == 0xff

/-- `IsEmpty()`: every byte of `readable_` is zero. -/
def BucketPage.IsEmpty (p : BucketPage K V) : Bool :=
  p.readable.all fun r => r == 0

/-- Kernighan popcount loop: `while (byte) { byte &= byte - 1; ans++ }`.
The explicit bound (`fuel`) makes the recursion structural; each step
strictly decreases the byte, so `fuel = b` always suffices. -/
def popcountAux : Nat → Nat → Nat
  | 0, _ => 0
  | fuel + 1, b => if b = 0 then 0 else popcountAux fuel (b &&& (b - 1)) + 1

/-- Kernighan popcount of one byte. -/
def popcount (b : Nat) : Nat := popcountAux b b

/-- `NumReadable()`: byte-wise Kernighan bit count over `readable_`. -/
def BucketPage.NumReadable (p : BucketPage K V) : Nat :=
  p.readable.foldl (fun a r => a + popcount r) 0

/-- `GetArrayCopy()` (from the `part_000` source file, the only one that
defines it): the live mappings, in increasing slot order. -/
def BucketPage.GetArrayCopy (B : Nat) (p : BucketPage K V) : List (K × V) :=
  (List.range B).filterMap fun i =>
    if p.IsReadable i then some (p.array.getD i default) else none

/-- `Clear()`: zero both bitmaps (`memset`), keeping their sizes. -/
def BucketPage.Clear (p : BucketPage K V) : BucketPage K V :=
  { p with occupied := List.replicate p.occupied.length 0,
           readable := List.replicate p.readable.length 0 }

/-- An all-zero bucket page of capacity `B`, as produced by `NewPage`
(the buffer pool zeroes a fresh frame). -/
def emptyBucket (B : Nat) [Inhabited K] [Inhabited V] : BucketPage K V :=
  { occupied := List.replicate (nbytes B) 0,
    readable := List.replicate (nbytes B) 0,
    array := List.replicate B default }

/-! ### Spec-side descriptions used to state the bucket-page claims -/

/-- Some readable slot below `B` holds an equal (key, value) pair. -/
def hasDuplicate (B : Nat) (p : BucketPage K V) (k : K) (v : V) : Bool :=
  (List.range B).any fun i => p.IsReadable i ∧ p.KeyAt i = k ∧ v = p.ValueAt i

/-- The first non-readable slot below `B`, in increasing slot order. -/
def firstFree (B : Nat) (p : BucketPage K V) : Option Nat :=
  (List.range B).find? fun i => ¬ p.IsReadable i

/-- The first readable slot below `B` whose key and value both match. -/
def firstMatch (B : Nat) (p : BucketPage K V) (k : K) (v : V) : Option Nat :=
  (List.range B).find? fun i => p.IsReadable i ∧ p.KeyAt i = k ∧ v = p.ValueAt i

/-! ## LRU replacer (`src/buffer/lru_replacer.cpp`)

The C++ keeps a doubly-linked list `frames_` (front = most recently
unpinned, back = least recently unpinned) plus a map `used_frame_` from
frame id to its list node.  The map's key set always equals the list's
element set, so the state collapses to the list itself; `used_frame_.count`
becomes list membership and `used_frame_.size()` the list length. -/

structure LRUReplacer where
  frames : List Nat
deriving DecidableEq

/-- `Victim(frame_id)`: pop the back of the list; `false` (`none`) when
empty. -/
def LRUReplacer.Victim (r : LRUReplacer) : Option (Nat × LRUReplacer) :=
  match r.frames.getLast? with
  | none => none
  | some f => some (f, ⟨r.frames.dropLast⟩)

/-- `Pin(frame_id)`: erase the frame's node if tracked. -/
def LRUReplacer.Pin (r : LRUReplacer) (f : Nat) : LRUReplacer :=
  if f ∈ r.frames then ⟨r.frames.erase f⟩ else r

/-- `Unpin(frame_id)`: push to the front only when not already tracked. -/
def LRUReplacer.Unpin (r : LRUReplacer) (f : Nat) : LRUReplacer :=
  if f ∈ r.frames then r else ⟨f :: r.frames⟩

/-- `Size()`. -/
def LRUReplacer.Size (r : LRUReplacer) : Nat := r.frames.length

/-- The replacer's initial state (constructor tracks nothing). -/
def emptyReplacer : LRUReplacer := ⟨[]⟩

/-- Unpin a list of frames in order. -/
def unpinAll (r : LRUReplacer) (fs : List Nat) : LRUReplacer :=
  fs.foldl LRUReplacer.Unpin r

/-- Successive `Victim` calls, at most `fuel` of them; each call shortens
the list, so `fuel = r.frames.length` drains the replacer completely. -/
def victimSeqAux : Nat → LRUReplacer → List Nat
  | 0, _ => []
  | fuel + 1, r =>
    match r.Victim with
    | none => []
    | some fr => fr.1 :: victimSeqAux fuel fr.2

/-- The sequence of frames returned by successive `Victim` calls until the
replacer is empty. -/
def victimSeq (r : LRUReplacer) : List Nat :=
  victimSeqAux r.frames.length r

/-! ## Directory page

`HashTableDirectoryPage` is used but not implemented in the sources; its
operations are modelled from the spec (§4.5, §4.6.2).  The physical arrays
are modelled as total functions on directory indices; the logical size is
`1 << global_depth`. -/

structure Directory where
  globalDepth : Nat
  localDepths : Nat → Nat
  bucketPageIds : Nat → Nat

/-- Modelled from the spec: `Size() = 1 << gd`. -/
def Directory.Size (d : Directory) : Nat := 1 <<< d.globalDepth

/-- Modelled from the spec: `GetGlobalDepthMask() = (1 << gd) - 1`. -/
def Directory.GetGlobalDepthMask (d : Directory) : Nat := (1 <<< d.globalDepth) - 1

/-- Modelled from the spec: `GetSplitImageIndex(i)` toggles the bit at
position `ld_i - 1` of `i`. -/
def Directory.GetSplitImageIndex (d : Directory) (i : Nat) : Nat :=
  i ^^^ (1 <<< (d.localDepths i - 1))

/-- Modelled from the spec: `SetLocalDepth(i, depth)`. -/
def Directory.SetLocalDepth (d : Directory) (i : Nat) (v : Nat) : Directory :=
  { d with localDepths := fun j => if j = i then v else d.localDepths j }

/-- Modelled from the spec: `IncrLocalDepth(i)`. -/
def Directory.IncrLocalDepth (d : Directory) (i : Nat) : Directory :=
  d.SetLocalDepth i (d.localDepths i + 1)

/-- Modelled from the spec: `SetBucketPageId(i, pid)`. -/
def Directory.SetBucketPageId (d : Directory) (i : Nat) (pid : Nat) : Directory :=
  { d with bucketPageIds := fun j => if j = i then pid else d.bucketPageIds j }

/-- Modelled from the spec (§4.6.2 step 3): `IncrGlobalDepth()` doubles the
directory, copying the low half's `bucket_page_ids` and `local_depths`
into the high half, and increments `global_depth`. -/
def Directory.IncrGlobalDepth (d : Directory) : Directory :=
  { globalDepth := d.globalDepth + 1,
    localDepths := fun j =>
      if d.Size ≤ j ∧ j < 2 * d.Size then d.localDepths (j - d.Size) else d.localDepths j,
    bucketPageIds := fun j =>
      if d.Size ≤ j ∧ j < 2 * d.Size then d.bucketPageIds (j - d.Size) else d.bucketPageIds j }

/-- Modelled from the spec: `DecrGlobalDepth()`. -/
def Directory.DecrGlobalDepth (d : Directory) : Directory :=
  { d with globalDepth := d.globalDepth - 1 }

/-- Modelled from the spec: `CanShrink()` is true iff every
`local_depth[i] < global_depth` for all `i < size`. -/
def Directory.CanShrink (d : Directory) : Bool :=
  decide (∀ i < d.Size, d.localDepths i < d.globalDepth)

/-! ## Extendible hash table (`src/container/hash/extendible_hash_table.cpp`)

Sequential model of the first (complete) variant in the source file.  The
buffer pool is a total map from page ids to bucket pages plus a monotone
fresh-id counter (`DiskManager::AllocatePage` never reuses ids); the
directory page occupies page id `0` and the initial bucket page id `1`
(the order in which `FetchDirectoryPage`'s lazy initialisation allocates
them).  Each operation also returns the list of buffer pool calls it
performed, and an `ok` flag recording that the pure in-code assertion in
`SplitInsert`'s redistribution loop (`new_bucket_id == origin ||
new_bucket_id == split`) held whenever it was reached. -/

/-- One buffer pool call, as performed by the index code. -/
inductive PinEv where
  | fetch (pid : Nat)
  | newpage (pid : Nat)
  | unpin (pid : Nat)
  | del (pid : Nat)
deriving DecidableEq

/-- Number of `FetchPage`/`NewPage` calls for page `p` in a log. -/
def fetchCount (l : List PinEv) (p : Nat) : Nat :=
  l.countP fun e => e = .fetch p ∨ e = .newpage p

/-- Number of `UnpinPage` calls for page `p` in a log. -/
def unpinCount (l : List PinEv) (p : Nat) : Nat :=
  l.countP fun e => e = .unpin p

/-- The directory page's page id in the model. -/
def dirPageId : Nat := 0

/-- The whole index state: directory page, bucket pages by page id,
next page id to be allocated. -/
structure HTState (K V : Type) where
  dir : Directory
  pages : Nat → BucketPage K V
  nextPageId : Nat

/-- Result of a mutating operation: the returned bool, the new state, the
buffer pool call log, and the conjunction of the redistribution assertion
conditions that were reached. -/
structure OpOut (K V : Type) where
  res : Bool
  st : HTState K V
  log : List PinEv
  ok : Bool

/-- The C++ `for (i = start; i >= diff; i -= diff) body(i)` loop used by
`SplitInsert` to rewrite directory entries below the start index.  The
recursion is made structural on `fuel`; each iteration decreases `i` by
`diff ≥ 1`, so any `fuel > start` runs the loop to completion. -/
def forDownAux {α : Type} (diff : Nat) (f : Nat → α → α) : Nat → Nat → α → α
  | 0, _, a => a
  | fuel + 1, i, a =>
    if 0 < diff ∧ diff ≤ i then forDownAux diff f fuel (i - diff) (f i a) else a

/-- `for (i = start; i >= diff; i -= diff) body(i)`. -/
def forDown {α : Type} (diff : Nat) (f : Nat → α → α) (i : Nat) (a : α) : α :=
  forDownAux diff f (i + 1) i a

/-- The C++ `for (i = start; i < size; i += diff) body(i)` loop used by
`SplitInsert` to rewrite directory entries from the start index upward;
`fuel > size` always suffices since `i` grows by `diff ≥ 1` per step. -/
def forUpAux {α : Type} (diff size : Nat) (f : Nat → α → α) : Nat → Nat → α → α
  | 0, _, a => a
  | fuel + 1, i, a =>
    if 0 < diff ∧ i < size then forUpAux diff size f fuel (i + diff) (f i a) else a

/-- `for (i = start; i < size; i += diff) body(i)`. -/
def forUp {α : Type} (diff size : Nat) (f : Nat → α → α) (i : Nat) (a : α) : α :=
  forUpAux diff size f (size + 1) i a

/-- The `while (CanShrink()) DecrGlobalDepth();` loop of `Merge`:
each iteration decrements the global depth, and `CanShrink` fails at
depth 0, so `fuel = globalDepth + 1` runs the loop to completion. -/
def shrinkAux : Nat → Directory → Directory
  | 0, d => d
  | fuel + 1, d => if d.CanShrink then shrinkAux fuel d.DecrGlobalDepth else d

/-- `while (CanShrink()) DecrGlobalDepth();`. -/
def shrinkLoop (d : Directory) : Directory :=
  shrinkAux (d.globalDepth + 1) d

/-- The directory rewrite loop of `Merge` (lines 317-324 of the source):
every index below `size` whose low bits under `ao` match `cm` gets local
depth `nd` and bucket page id `pid`; every index matching `sm` gets local
depth `nd` only (`cm`, `sm`, `ao`, `nd` and `pid` are all computed before
the loop in the source). -/
def mergeRewrite (cm sm ao nd pid size : Nat) (d : Directory) : Directory :=
  (List.range size).foldl
    (fun d i =>
      if (i ^^^ cm) &&& ao = 0 then (d.SetLocalDepth i nd).SetBucketPageId i pid
      else if (i ^^^ sm) &&& ao = 0 then d.SetLocalDepth i nd
      else d) d

namespace EHT

variable (hashFn : K → Nat) (B : Nat)

/-- `Hash(key)`: downcast of the hash to 32 bits. -/
def HashOf (k : K) : Nat := hashFn k % 2 ^ 32

/-- `KeyToDirectoryIndex(key, dir_page) = Hash(key) & GetGlobalDepthMask()`. -/
def KeyToDirectoryIndex (st : HTState K V) (k : K) : Nat :=
  HashOf hashFn k &&& st.dir.GetGlobalDepthMask

/-- `KeyToPageId(key, dir_page)`. -/
def KeyToPageId (st : HTState K V) (k : K) : Nat :=
  st.dir.bucketPageIds (KeyToDirectoryIndex hashFn st k)

/-- The state after `FetchDirectoryPage`'s lazy initialisation: a zeroed
directory page (global depth 0, all local depths 0, all page ids 0) with
entry 0 pointing at the freshly allocated bucket page 1. -/
def initState : HTState K V :=
  { dir := { globalDepth := 0, localDepths := fun _ => 0,
             bucketPageIds := fun i => if i = 0 then 1 else 0 },
    pages := fun _ => emptyBucket B,
    nextPageId := 2 }

/-- `GetValue(transaction, key, result)`: the appended values and the
operation output (state unchanged, both pages unpinned clean). -/
def GetValue (st : HTState K V) (k : K) : OpOut K V × List V :=
  let page_id := KeyToPageId hashFn st k
  let vals := (st.pages page_id).GetValue B k
  ({ res := ¬ vals.isEmpty, st := st,
     log := [.fetch dirPageId, .fetch page_id, .unpin dirPageId, .unpin page_id],
     ok := true }, vals)

/-- The body of `SplitInsert(transaction, key, value)` (lines 150–232 of
the source).  The two tail calls `return Insert(transaction, key, value)`
go through the continuation `next`, so that the `Insert`/`SplitInsert`
mutual recursion below is structural on its fuel. -/
def SplitInsertGo (next : HTState K V → K → V → OpOut K V)
    (st : HTState K V) (k : K) (v : V) : OpOut K V :=
    let origin_bucket_id := KeyToDirectoryIndex hashFn st k
    let origin_bucket_depth := st.dir.localDepths origin_bucket_id
    if origin_bucket_depth ≥ 9 then
      { res := false, st := st, log := [.fetch dirPageId, .unpin dirPageId], ok := true }
    else
      let origin_page_id := KeyToPageId hashFn st k
      let origin_bucket_page := st.pages origin_page_id
      if ¬ origin_bucket_page.IsFull then
        -- the bucket is no longer full: release and retry the full Insert
        -- path.  Note: the origin page is fetched but never unpinned here.
        let o := next st k v
        { o with log := [.fetch dirPageId, .fetch origin_page_id, .unpin dirPageId] ++ o.log }
      else
        let d1 := st.dir.IncrLocalDepth origin_bucket_id
        let d2 := if origin_bucket_depth ≥ d1.globalDepth then d1.IncrGlobalDepth else d1
        let split_bucket_id := d2.GetSplitImageIndex origin_bucket_id
        let split_page_id := st.nextPageId
        let d3 := d2.SetBucketPageId split_bucket_id split_page_id
        let diff := 1 <<< d3.localDepths origin_bucket_id
        let body_origin : Nat → Directory → Directory := fun i d =>
          (d.SetBucketPageId i origin_page_id).SetLocalDepth i (d.localDepths origin_bucket_id)
        let body_split : Nat → Directory → Directory := fun i d =>
          (d.SetBucketPageId i split_page_id).SetLocalDepth i (d.localDepths origin_bucket_id)
        let d4 := forDown diff body_origin origin_bucket_id d3
        let d5 := forUp diff d4.Size body_origin origin_bucket_id d4
        let d6 := forDown diff body_split split_bucket_id d5
        let d7 := forUp diff d6.Size body_split split_bucket_id d6
        let num := origin_bucket_page.NumReadable
        let arr := origin_bucket_page.GetArrayCopy B
        let redest := (List.range num).foldl
          (fun (acc : BucketPage K V × BucketPage K V) i =>
            let kv := arr.getD i default
            let new_bucket_id := HashOf hashFn kv.1 &&& d7.GetGlobalDepthMask
            if new_bucket_id = origin_bucket_id then ((acc.1.Insert B kv.1 kv.2).2, acc.2)
            else if new_bucket_id = split_bucket_id then (acc.1, (acc.2.Insert B kv.1 kv.2).2)
            else acc)
          (origin_bucket_page.Clear, emptyBucket B)
        let okAll := (List.range num).all fun i =>
          let kv := arr.getD i default
          let new_bucket_id := HashOf hashFn kv.1 &&& d7.GetGlobalDepthMask
          new_bucket_id = origin_bucket_id ∨ new_bucket_id = split_bucket_id
        let st' : HTState K V :=
          { dir := d7,
            pages := fun p =>
              if p = origin_page_id then redest.1
              else if p = split_page_id then redest.2
              else st.pages p,
            nextPageId := st.nextPageId + 1 }
        let o := next st' k v
        { res := o.res, st := o.st,
          log := [.fetch dirPageId, .fetch origin_page_id, .newpage split_page_id,
                  .unpin origin_page_id, .unpin split_page_id, .unpin dirPageId] ++ o.log,
          ok := okAll && o.ok }

/-- `Insert(transaction, key, value)` (lines 116–148 of the source).  The
source re-checks `bucket_id == KeyToDirectoryIndex(key, dir_page)` before
inserting; with a single directory state between the two reads the check
is identically true, so the dead re-insert branch is not modelled.
`fuel` bounds the unbounded `Insert`/`SplitInsert` recursion of the
source; every claim is stated for a sufficient concrete fuel. -/
def Insert : Nat → HTState K V → K → V → OpOut K V
  | 0, st, _, _ => { res := false, st := st, log := [], ok := true }
  | fuel + 1, st, k, v =>
    let bucket_id := KeyToDirectoryIndex hashFn st k
    let page_id := st.dir.bucketPageIds bucket_id
    let bucket_page := st.pages page_id
    if ¬ bucket_page.IsFull then
      let r := bucket_page.Insert B k v
      { res := r.1,
        st := { st with pages := fun p => if p = page_id then r.2 else st.pages p },
        log := [.fetch dirPageId, .fetch page_id, .unpin dirPageId, .unpin page_id],
        ok := true }
    else
      let o := SplitInsertGo hashFn B (Insert fuel) st k v
      { o with log := [.fetch dirPageId, .fetch page_id, .unpin dirPageId, .unpin page_id] ++ o.log }

/-- `SplitInsert(transaction, key, value)`: the body with the recursive
calls going back to `Insert` at the given fuel. -/
def SplitInsert (fuel : Nat) (st : HTState K V) (k : K) (v : V) : OpOut K V :=
  SplitInsertGo hashFn B (Insert hashFn B fuel) st k v

/-- `Merge(transaction, key, value)` (lines 265–332 of the source).
Returns the new state and the buffer pool call log.  `DeletePage` zeroes
the freed page in the model (the pool zeroes a frame on delete; the id is
never reallocated since `AllocatePage` is monotone). -/
def Merge (st : HTState K V) (k : K) (_v : V) : HTState K V × List PinEv :=
  let cur_bucket_idx := KeyToDirectoryIndex hashFn st k
  let cur_depth := st.dir.localDepths cur_bucket_idx
  if cur_bucket_idx ≥ st.dir.Size then
    (st, [.fetch dirPageId, .unpin dirPageId])
  else if cur_depth = 0 then
    (st, [.fetch dirPageId, .unpin dirPageId])
  else
    let split_bucket_idx := st.dir.GetSplitImageIndex cur_bucket_idx
    let split_page_id := st.dir.bucketPageIds split_bucket_idx
    let split_depth := st.dir.localDepths split_bucket_idx
    if cur_depth ≠ split_depth then
      (st, [.fetch dirPageId, .unpin dirPageId])
    else
      let cur_page_id := st.dir.bucketPageIds cur_bucket_idx
      let cur_bucket_page := st.pages cur_page_id
      if ¬ cur_bucket_page.IsEmpty then
        (st, [.fetch dirPageId, .fetch cur_page_id, .unpin cur_page_id, .unpin dirPageId])
      else
        let all_one := (1 <<< cur_depth) - 1
        let cur_mask := cur_bucket_idx &&& all_one
        let split_mask := split_bucket_idx &&& all_one
        let size := st.dir.Size
        let d' := mergeRewrite cur_mask split_mask all_one (cur_depth - 1) split_page_id size st.dir
        let d'' := shrinkLoop d'
        ({ dir := d'',
           pages := fun p => if p = cur_page_id then emptyBucket B else st.pages p,
           nextPageId := st.nextPageId },
         [.fetch dirPageId, .fetch cur_page_id, .unpin cur_page_id, .del cur_page_id,
          .unpin dirPageId])

/-- `Remove(transaction, key, value)` (lines 237–260 of the source):
remove from the bucket, and if the bucket is then empty, invoke `Merge`. -/
def Remove (st : HTState K V) (k : K) (v : V) : OpOut K V :=
  let page_id := KeyToPageId hashFn st k
  let bucket_page := st.pages page_id
  let r := bucket_page.Remove B k v
  let st1 : HTState K V :=
    { st with pages := fun p => if p = page_id then r.2 else st.pages p }
  if r.2.IsEmpty then
    let m := Merge hashFn B st1 k v
    { res := r.1, st := m.1,
      log := [.fetch dirPageId, .fetch page_id, .unpin page_id, .unpin dirPageId] ++ m.2,
      ok := true }
  else
    { res := r.1, st := st1,
      log := [.fetch dirPageId, .fetch page_id, .unpin page_id, .unpin dirPageId],
      ok := true }

/-- States reachable from the initial state by public index operations. -/
inductive Reachable : HTState K V → Prop where
  | init : Reachable (initState B)
  | getvalue {st} (k : K) : Reachable st → Reachable (GetValue hashFn B st k).1.st
  | insert {st} (fuel : Nat) (k : K) (v : V) : Reachable st →
      Reachable (Insert hashFn B fuel st k v).st
  | remove {st} (k : K) (v : V) : Reachable st →
      Reachable (Remove hashFn B st k v).st

end EHT

/-- The directory integrity invariant from the spec (§3, `VerifyIntegrity`):
every active entry's local depth is at most the global depth, and any two
directory indices that agree on the low `ld` bits share the same bucket
page id and the same local depth. -/
def DirIntegrity (d : Directory) : Prop :=
  ∀ i < d.Size, d.localDepths i ≤ d.globalDepth ∧
    ∀ j < d.Size, j &&& ((1 <<< d.localDepths i) - 1) = i &&& ((1 <<< d.localDepths i) - 1) →
      d.bucketPageIds j = d.bucketPageIds i ∧ d.localDepths j = d.localDepths i

instance (d : Directory) : Decidable (DirIntegrity d) := by
  unfold DirIntegrity; infer_instance

/-! ## Concrete instantiation used for the counterexample traces

The table is templated over key type, value type and hash function, and
the bucket capacity derives from the configurable page size; the traces
instantiate keys and values with `Nat`, the hash function with the
identity and the bucket capacity with 8 (one full bitmap byte). -/

/-- Identity hash on naturals. -/
def idHash : Nat → Nat := fun k => k

/-- Keys of an insert-only trace: fill and split the all-zeroes-suffix
chain until global depth 3 (keys `0..8,10..16,20..32`), fill the odd
bucket (local depth 1) with `1,3,5,7,9,11,15,17`, then insert key `13`,
whose directory index `5` triggers a split with new local depth
`2 < global depth 3`. -/
def traceKeys : List Nat := [0,1,2,3,4,5,6,7,8,10,12,14,16,20,24,28,32,9,11,15,17,13]

/-- Run `Insert(k, k)` for each key in order from the initial state with
bucket capacity 8 and the identity hash, collecting the returned
booleans (fuel 5 is ample: no trace insert splits more than once). -/
def runTrace (ks : List Nat) : List Bool × HTState Nat Nat :=
  ks.foldl (fun acc k =>
    let o := EHT.Insert idHash 8 5 acc.2 k k
    (acc.1 ++ [o.res], o.st)) ([], EHT.initState 8)

/-- The trace state just before the final, invariant-breaking insert. -/
def preSplitState : HTState Nat Nat := (runTrace (traceKeys.take 21)).2

/-- A directory fixture for the redistribution-class witness: global
depth 3, the class of index 5 already split to local depth 2, every other
entry at local depth 1. -/
def wdir8 : Directory :=
  { globalDepth := 3,
    localDepths := fun j => if j % 4 = 1 then 2 else 1,
    bucketPageIds := fun _ => 0 }

/-- A small bucket-page fixture for the witnesses: capacity 4, one bitmap
byte, all slots free. -/
def wpage : BucketPage Nat Nat :=
  { occupied := [0], readable := [0], array := List.replicate 4 (0, 0) }

/-- The fixture after inserting the pair (1, 2). -/
def wpage2 : BucketPage Nat Nat := (wpage.Insert 4 1 2).2

/-- A capacity-4 fixture with all four slots readable and the four
padding bits of the single bitmap byte clear. -/
def wfull : BucketPage Nat Nat :=
  { occupied := [0xf0], readable := [0xf0], array := List.replicate 4 (0, 0) }

/-- A completely full capacity-8 bucket fixture. -/
def wfull8 : BucketPage Nat Nat :=
  { occupied := [0xff], readable := [0xff],
    array := (List.range 8).map fun i => (i, i) }

/-- A two-entry directory (global depth 1, both local depths 1) whose
bucket at index 0 (page 1) is empty, ready to be merged into the split
image's bucket (page 2). -/
def wmergeState : HTState Nat Nat :=
  { dir := { globalDepth := 1, localDepths := fun _ => 1,
             bucketPageIds := fun i => if i % 2 = 0 then 1 else 2 },
    pages := fun _ => emptyBucket 8,
    nextPageId := 3 }

/-- A state whose only bucket is full and registered at local depth 9
(the structural limit), used to witness the failing-insert theorem. -/
def w9state : HTState Nat Nat :=
  { dir := { globalDepth := 0, localDepths := fun _ => 9,
             bucketPageIds := fun i => if i = 0 then 1 else 0 },
    pages := fun p => if p = 1 then wfull8 else emptyBucket 8,
    nextPageId := 2 }

/-! # Theorems -/

/-! ## Bit-level helper lemmas -/

theorem and_two_pow_ne_zero_iff (b m : Nat) : b &&& 2 ^ m ≠ 0 ↔ b.testBit m := by
  constructor
  · intro h
    by_contra hbit
    apply h
    apply Nat.eq_of_testBit_eq
    intro j
    simp only [Nat.testBit_and, Nat.zero_testBit, Nat.testBit_two_pow]
    by_cases hj : m = j
    · subst hj; simp [Bool.eq_false_iff.mpr hbit]
    · simp [hj]
  · intro h h0
    have : (b &&& 2 ^ m).testBit m = false := by rw [h0]; exact Nat.zero_testBit m
    rw [Nat.testBit_and, h, Nat.testBit_two_pow] at this
    simp at this

theorem bne_and_two_pow (b m : Nat) : (b &&& 2 ^ m != 0) = b.testBit m := by
  rcases h : b.testBit m with _ | _
  · have h0 : b &&& 2 ^ m = 0 := by
      by_contra hne
      have := (and_two_pow_ne_zero_iff b m).mp hne
      simp [h] at this
    simp [h0]
  · have hne : b &&& 2 ^ m ≠ 0 := (and_two_pow_ne_zero_iff b m).mpr (by rw [h])
    simp [bne_iff_ne, hne]

theorem bitGet_eq_testBit (b i : Nat) : bitGet b i = b.testBit (7 - i % 8) := by
  unfold bitGet
  rw [Nat.one_shiftLeft, bne_and_two_pow]

theorem bitGet_bitSet_self (b i : Nat) : bitGet (bitSet b i) i = true := by
  rw [bitGet_eq_testBit]
  unfold bitSet
  rw [Nat.one_shiftLeft, Nat.testBit_or, Nat.testBit_two_pow]
  simp

theorem bitGet_bitSet_ne (b i j : Nat) (h : i % 8 ≠ j % 8) :
    bitGet (bitSet b i) j = bitGet b j := by
  rw [bitGet_eq_testBit, bitGet_eq_testBit]
  unfold bitSet
  rw [Nat.one_shiftLeft, Nat.testBit_or, Nat.testBit_two_pow]
  have : 7 - i % 8 ≠ 7 - j % 8 := by
    have hi : i % 8 < 8 := Nat.mod_lt _ (by omega)
    have hj : j % 8 < 8 := Nat.mod_lt _ (by omega)
    omega
  simp [this]

theorem bitGet_bitClear_self (b i : Nat) : bitGet (bitClear b i) i = false := by
  rw [bitGet_eq_testBit]
  unfold bitClear
  rw [Nat.one_shiftLeft, Nat.testBit_and, Nat.testBit_xor, Nat.testBit_two_pow]
  have h8 : (0xff : Nat) = 2 ^ 8 - 1 := by norm_num
  rw [h8, Nat.testBit_two_pow_sub_one]
  have : 7 - i % 8 < 8 := by omega
  simp [this]

theorem bitGet_bitClear_ne (b i j : Nat) (h : i % 8 ≠ j % 8) :
    bitGet (bitClear b i) j = bitGet b j := by
  rw [bitGet_eq_testBit, bitGet_eq_testBit]
  unfold bitClear
  rw [Nat.one_shiftLeft, Nat.testBit_and, Nat.testBit_xor, Nat.testBit_two_pow]
  have h8 : (0xff : Nat) = 2 ^ 8 - 1 := by norm_num
  rw [h8, Nat.testBit_two_pow_sub_one]
  have hi : i % 8 < 8 := Nat.mod_lt _ (by omega)
  have hj : j % 8 < 8 := Nat.mod_lt _ (by omega)
  have h1 : 7 - j % 8 < 8 := by omega
  have h2 : 7 - i % 8 ≠ 7 - j % 8 := by omega
  cases hb : b.testBit (7 - j % 8) <;> simp [h1, h2, hb]

theorem bitGet_zero (i : Nat) : bitGet 0 i = false := by
  simp [bitGet]

/-! ## Bucket-page lemmas -/

section BucketLemmas

variable {K V : Type}

theorem getD_set_eq (l : List Nat) (n a : Nat) :
    (l.set n a).getD n 0 = if n < l.length then a else 0 := by
  by_cases h : n < l.length
  · simp [List.getD_eq_getElem?_getD, List.getElem?_set_self h, h]
  · rw [List.set_eq_of_length_le (by omega)]
    simp [List.getD_eq_getElem?_getD, List.getElem?_eq_none (by omega : l.length ≤ n), h]

theorem getD_set_ne (l : List Nat) (m n a : Nat) (h : m ≠ n) :
    (l.set m a).getD n 0 = l.getD n 0 := by
  simp [List.getD_eq_getElem?_getD, List.getElem?_set_ne h]

theorem IsReadable_SetReadable_self (p : BucketPage K V) (i : Nat)
    (h : i / 8 < p.readable.length) : (p.SetReadable i).IsReadable i = true := by
  simp only [BucketPage.IsReadable, BucketPage.SetReadable, getD_set_eq, h, if_pos]
  exact bitGet_bitSet_self _ i

theorem IsReadable_SetReadable_ne (p : BucketPage K V) (i j : Nat) (h : j ≠ i) :
    (p.SetReadable i).IsReadable j = p.IsReadable j := by
  simp only [BucketPage.IsReadable, BucketPage.SetReadable]
  by_cases hb : i / 8 = j / 8
  · rw [hb, getD_set_eq]
    by_cases hl : j / 8 < p.readable.length
    · rw [if_pos hl]
      exact bitGet_bitSet_ne _ i j (by omega)
    · rw [if_neg hl, List.getD_eq_getElem?_getD, List.getElem?_eq_none (by omega)]
      simp
  · rw [getD_set_ne _ _ _ _ hb]

theorem IsOccupied_SetOccupied_self (p : BucketPage K V) (i : Nat)
    (h : i / 8 < p.occupied.length) : (p.SetOccupied i).IsOccupied i = true := by
  simp only [BucketPage.IsOccupied, BucketPage.SetOccupied, getD_set_eq, h, if_pos]
  exact bitGet_bitSet_self _ i

theorem IsReadable_ReSetReadable_self (p : BucketPage K V) (i : Nat) :
    (p.ReSetReadable i).IsReadable i = false := by
  simp only [BucketPage.IsReadable, BucketPage.ReSetReadable, getD_set_eq]
  by_cases hl : i / 8 < p.readable.length
  · rw [if_pos hl]; exact bitGet_bitClear_self _ i
  · rw [if_neg hl]; exact bitGet_zero i

theorem IsReadable_ReSetReadable_ne (p : BucketPage K V) (i j : Nat) (h : j ≠ i) :
    (p.ReSetReadable i).IsReadable j = p.IsReadable j := by
  simp only [BucketPage.IsReadable, BucketPage.ReSetReadable]
  by_cases hb : i / 8 = j / 8
  · rw [hb, getD_set_eq]
    by_cases hl : j / 8 < p.readable.length
    · rw [if_pos hl]
      exact bitGet_bitClear_ne _ i j (by omega)
    · rw [if_neg hl, List.getD_eq_getElem?_getD, List.getElem?_eq_none (by omega)]
      simp
  · rw [getD_set_ne _ _ _ _ hb]

/-- `SetOccupied` only touches the occupied bitmap. -/
theorem IsReadable_SetOccupied (p : BucketPage K V) (i j : Nat) :
    (p.SetOccupied i).IsReadable j = p.IsReadable j := rfl

/-- The scan loop of `Insert` returns `none` (duplicate found) exactly
when some scanned slot holds a readable equal pair, and otherwise yields
the accumulator or, failing that, the first non-readable scanned slot. -/
theorem insertScan_eq [DecidableEq K] [DecidableEq V] [Inhabited K] [Inhabited V]
    (p : BucketPage K V) (k : K) (v : V) (L : List Nat) :
    ∀ acc, insertScan p k v L acc =
      if L.any (fun i => p.IsReadable i ∧ p.KeyAt i = k ∧ v = p.ValueAt i) then none
      else some (acc <|> L.find? fun i => ¬ p.IsReadable i) := by
  induction L with
  | nil => intro acc; simp [insertScan]
  | cons i rest ih =>
    intro acc
    simp only [insertScan]
    by_cases hdup : p.IsReadable i ∧ p.KeyAt i = k ∧ v = p.ValueAt i
    · rw [if_pos hdup, List.any_cons, if_pos]
      simp [hdup]
    · rw [if_neg hdup]
      by_cases hfree : ¬ p.IsReadable i ∧ acc = none
      · rw [if_pos hfree, ih, List.any_cons]
        have : (decide (p.IsReadable i = true ∧ p.KeyAt i = k ∧ v = p.ValueAt i)) = false := by
          simpa using hdup
        rw [this, Bool.false_or, List.find?_cons_of_pos _ (by simpa using hfree.1), hfree.2]
        rcases hany : rest.any (fun i => p.IsReadable i ∧ p.KeyAt i = k ∧ v = p.ValueAt i) with _ | _
        · simp
        · rfl
      · rw [if_neg hfree, ih, List.any_cons]
        have hdup' : (decide (p.IsReadable i = true ∧ p.KeyAt i = k ∧ v = p.ValueAt i)) = false := by
          simpa using hdup
        rw [hdup', Bool.false_or]
        rcases hany : rest.any (fun i => p.IsReadable i ∧ p.KeyAt i = k ∧ v = p.ValueAt i) with _ | _
        · rw [if_neg (by simp [hany]), if_neg (by simp [hany])]
          rcases hr : p.IsReadable i with _ | _
        -- ¬hfree with ¬readable means acc ≠ none
          · have hacc : acc ≠ none := by
              intro hn; exact hfree ⟨by simp [hr], hn⟩
            rcases acc with _ | a
            · exact absurd rfl hacc
            · rw [List.find?_cons_of_pos _ (by simp [hr])]
              rfl
          · rw [List.find?_cons_of_neg _ (by simp [hr])]
        · rw [if_pos (by simp [hany]), if_pos (by simp [hany])]

/-- The scan loop of `Remove` finds the first matching readable slot. -/
theorem removeScan_eq [DecidableEq K] [DecidableEq V] [Inhabited K] [Inhabited V]
    (p : BucketPage K V) (k : K) (v : V) (L : List Nat) :
    removeScan p k v L =
      L.find? fun i => p.IsReadable i ∧ p.KeyAt i = k ∧ v = p.ValueAt i := by
  induction L with
  | nil => rfl
  | cons i rest ih =>
    simp only [removeScan]
    by_cases h : p.IsReadable i ∧ p.KeyAt i = k ∧ v = p.ValueAt i
    · rw [if_pos h, List.find?_cons_of_pos _ (by simpa using h)]
    · rw [if_neg h, List.find?_cons_of_neg _ (by simpa using h), ih]

end BucketLemmas

section BucketClaims

variable {K V : Type} [DecidableEq K] [DecidableEq V] [Inhabited K] [Inhabited V]

/-- Case analysis of `BucketPage.Insert` in terms of `hasDuplicate` and
`firstFree` (shared by the bucket-page claims). -/
theorem bucketInsert_cases (B : Nat) (p : BucketPage K V) (k : K) (v : V) :
    p.Insert B k v =
      if hasDuplicate B p k v then (false, p)
      else match firstFree B p with
        | none => (false, p)
        | some s =>
          (true, (({ p with array := p.array.set s (k, v) }).SetOccupied s).SetReadable s) := by
  unfold BucketPage.Insert hasDuplicate firstFree
  rw [insertScan_eq]
  simp only [Option.none_orElse]
  by_cases hdup : (List.range B).any
      (fun i => p.IsReadable i ∧ p.KeyAt i = k ∧ v = p.ValueAt i) = true
  · rw [if_pos hdup, if_pos hdup]
  · rw [if_neg hdup, if_neg hdup]
    rcases hff : (List.range B).find? (fun i => ¬ p.IsReadable i) with _ | s
    · rfl
    · rfl

/-- C3.  For every bucket-page state, `BucketPage::Insert(key, value, cmp)`
returns false and leaves the page unchanged when some readable slot
already holds an equal (key, value) pair or when no non-readable slot
exists (page full); otherwise it writes (key, value) into the first
non-readable slot in increasing slot-index order, sets that slot's
occupied and readable bits, and returns true. -/
theorem c3_bucket_insert (B : Nat) (p : BucketPage K V) (k : K) (v : V) :
    (hasDuplicate B p k v = true → p.Insert B k v = (false, p)) ∧
    (hasDuplicate B p k v = false → firstFree B p = none → p.Insert B k v = (false, p)) ∧
    (∀ s, hasDuplicate B p k v = false → firstFree B p = some s →
      p.Insert B k v =
        (true, (({ p with array := p.array.set s (k, v) }).SetOccupied s).SetReadable s) ∧
      (s < p.array.length →
        (p.Insert B k v).2.KeyAt s = k ∧ (p.Insert B k v).2.ValueAt s = v) ∧
      (s / 8 < p.occupied.length → (p.Insert B k v).2.IsOccupied s = true) ∧
      (s / 8 < p.readable.length → (p.Insert B k v).2.IsReadable s = true) ∧
      ∀ j, j ≠ s → (p.Insert B k v).2.IsReadable j = p.IsReadable j) := by
  have key := bucketInsert_cases B p k v
  refine ⟨?_, ?_, ?_⟩
  · intro hdup
    rw [key, if_pos hdup]
  · intro hdup hff
    rw [key, if_neg (by simp [hdup]), hff]
  · intro s hdup hff
    have hins : p.Insert B k v =
        (true, (({ p with array := p.array.set s (k, v) }).SetOccupied s).SetReadable s) := by
      rw [key, if_neg (by simp [hdup]), hff]
    refine ⟨hins, ?_, ?_, ?_, ?_⟩
    · intro hlen
      rw [hins]
      constructor
      · show ((p.array.set s (k, v)).getD s default).1 = k
        rw [List.getD_eq_getElem?_getD, List.getElem?_set_self hlen]
        rfl
      · show ((p.array.set s (k, v)).getD s default).2 = v
        rw [List.getD_eq_getElem?_getD, List.getElem?_set_self hlen]
        rfl
    · intro hlen
      rw [hins]
      exact IsOccupied_SetOccupied_self _ s hlen
    · intro hlen
      rw [hins]
      exact IsReadable_SetReadable_self _ s hlen
    · intro j hj
      rw [hins]
      show ((({ p with array := p.array.set s (k, v) }).SetOccupied s).SetReadable s).IsReadable j
        = p.IsReadable j
      rw [IsReadable_SetReadable_ne _ s j hj]
      rfl

/-- Witness for C3 at a concrete page: inserting (1, 2) into the empty
capacity-4 fixture succeeds, targets slot 0 and sets its bits. -/
theorem c3_bucket_insert_witness :
    (wpage.Insert 4 1 2).1 = true ∧ (wpage.Insert 4 1 2).2.IsReadable 0 = true ∧
    (wpage.Insert 4 1 2).2.IsOccupied 0 = true ∧ (wpage.Insert 4 1 2).2.KeyAt 0 = 1 := by
  have h := (c3_bucket_insert 4 wpage 1 2).2.2 0 (by decide) (by decide)
  refine ⟨by rw [h.1], h.2.2.2.1 (by decide), h.2.2.1 (by decide), (h.2.1 (by decide)).1⟩

/-- C4.  `BucketPage::Remove(key, value, cmp)` clears only the readable
bit of the first readable slot whose key and value both match and returns
true; the occupied bitmap and the key/value array are unchanged; when no
readable slot matches, it returns false and changes nothing. -/
theorem c4_bucket_remove (B : Nat) (p : BucketPage K V) (k : K) (v : V) :
    (firstMatch B p k v = none → p.Remove B k v = (false, p)) ∧
    (∀ i, firstMatch B p k v = some i →
      p.Remove B k v = (true, p.ReSetReadable i) ∧
      (p.Remove B k v).2.occupied = p.occupied ∧
      (p.Remove B k v).2.array = p.array ∧
      (p.Remove B k v).2.IsReadable i = false ∧
      ∀ j, j ≠ i → (p.Remove B k v).2.IsReadable j = p.IsReadable j) := by
  have key : p.Remove B k v =
      match firstMatch B p k v with
      | some i => (true, p.ReSetReadable i)
      | none => (false, p) := by
    unfold BucketPage.Remove firstMatch
    rw [removeScan_eq]
  refine ⟨?_, ?_⟩
  · intro hnone
    rw [key, hnone]
  · intro i hsome
    have hrem : p.Remove B k v = (true, p.ReSetReadable i) := by rw [key, hsome]
    refine ⟨hrem, by rw [hrem]; rfl, by rw [hrem]; rfl, ?_, ?_⟩
    · rw [hrem]
      exact IsReadable_ReSetReadable_self p i
    · intro j hj
      rw [hrem]
      exact IsReadable_ReSetReadable_ne p i j hj

/-- Witness for C4 at a concrete page: removing (1, 2) from the fixture
holding (1, 2) at slot 0 returns true, clears exactly the readable bit of
slot 0 and leaves the occupied bitmap and array unchanged. -/
theorem c4_bucket_remove_witness :
    (wpage2.Remove 4 1 2).1 = true ∧
    (wpage2.Remove 4 1 2).2.IsReadable 0 = false ∧
    (wpage2.Remove 4 1 2).2.occupied = wpage2.occupied ∧
    (wpage2.Remove 4 1 2).2.array = wpage2.array ∧
    (wpage2.Remove 4 1 2).2.IsReadable 1 = wpage2.IsReadable 1 := by
  have h := (c4_bucket_remove 4 wpage2 1 2).2 0 (by decide)
  exact ⟨by rw [h.1], h.2.2.2.1, h.2.1, h.2.2.1, h.2.2.2.2 1 (by decide)⟩

/-- C10.  `IsFull()` returns true iff every byte of the readable bitmap
equals 0xFF, padding bits included; hence when `BUCKET_ARRAY_SIZE` is not
a multiple of 8, a bucket whose `B` slots are all readable but whose
padding bits are clear is not reported full, although `Insert` can only
set bits at slot indices below `B` (so it never sets a padding bit). -/
theorem c10_isfull_padding (B : Nat) (p : BucketPage K V) (k : K) (v : V) :
    ((∀ b ∈ p.readable, b < 256) → (p.IsFull = true ↔ ∀ b ∈ p.readable, b = 255)) ∧
    (B % 8 ≠ 0 → p.readable.length = nbytes B → (∀ i < B, p.IsReadable i = true) →
      p.IsReadable B = false → p.IsFull = false) ∧
    (∀ j, B ≤ j → (p.Insert B k v).2.IsReadable j = p.IsReadable j) := by
  refine ⟨?_, ?_, ?_⟩
  · intro hlt
    unfold BucketPage.IsFull
    rw [List.all_eq_true]
    constructor
    · intro hall b hb
      have hb255 : b &&& 0xff = 0xff := by
        have := hall b hb
        simpa using this
      have : b % 256 = b := Nat.mod_eq_of_lt (hlt b hb)
      have h255 : (0xff : Nat) = 2 ^ 8 - 1 := by norm_num
      rw [h255, Nat.and_pow_two_sub_one_eq_mod] at hb255
      omega
    · intro hall b hb
      rw [hall b hb]
      decide
  · intro hmod hlen _hall hpad
    by_contra hfull
    rw [Bool.not_eq_false] at hfull
    have hBpos : 1 ≤ B := by omega
    have hidx : B / 8 < p.readable.length := by rw [hlen]; unfold nbytes; omega
    set b := p.readable.getD (B / 8) 0 with hbdef
    have hmem : b ∈ p.readable := by
      rw [hbdef, List.getD_eq_getElem?_getD, List.getElem?_eq_getElem hidx]
      exact List.getElem_mem hidx
    have hb255 : b &&& 0xff = 0xff := by
      unfold BucketPage.IsFull at hfull
      rw [List.all_eq_true] at hfull
      have := hfull b hmem
      simpa using this
    have hbit : b.testBit (7 - B % 8) = true := by
      have h1 : (b &&& 0xff).testBit (7 - B % 8) = true := by
        rw [hb255]
        have h255 : (0xff : Nat) = 2 ^ 8 - 1 := by norm_num
        rw [h255, Nat.testBit_two_pow_sub_one]
        simp only [decide_eq_true_eq]
        omega
      rw [Nat.testBit_and, Bool.and_eq_true] at h1
      exact h1.1
    have : p.IsReadable B = true := by
      unfold BucketPage.IsReadable
      rw [← hbdef, bitGet_eq_testBit, hbit]
    rw [this] at hpad
    exact absurd hpad (by decide)
  · intro j hj
    have key := bucketInsert_cases B p k v
    by_cases hdup : hasDuplicate B p k v = true
    · rw [key, if_pos hdup]
    · rcases hff : firstFree B p with _ | s
      · rw [key, if_neg (by simp [hdup]), hff]
      · have hins : p.Insert B k v =
            (true, (({ p with array := p.array.set s (k, v) }).SetOccupied s).SetReadable s) := by
          rw [key, if_neg (by simp [hdup]), hff]
        have hs : s < B := by
          have hmem := List.mem_of_find?_eq_some hff
          exact List.mem_range.mp hmem
        rw [hins]
        show ((({ p with array := p.array.set s (k, v) }).SetOccupied s).SetReadable s).IsReadable j
          = p.IsReadable j
        rw [IsReadable_SetReadable_ne _ s j (by omega)]
        rfl

/-- Witness for C10: the capacity-4 fixture with all four slots readable
and clear padding is not reported full, and its bytes are below 256. -/
theorem c10_isfull_padding_witness :
    wfull.IsFull = false ∧ (wfull.IsFull = true ↔ ∀ b ∈ wfull.readable, b = 255) ∧
    ((wfull.Insert 4 1 2).2.IsReadable 6 = wfull.IsReadable 6) := by
  have h := c10_isfull_padding 4 wfull 1 2
  exact ⟨h.2.1 (by decide) (by decide) (by decide) (by decide),
         h.1 (by decide), h.2.2 6 (by decide)⟩

end BucketClaims

/-! ## LRU replacer lemmas and claim C5 -/

section LRUClaims

theorem unpinAll_frames (fs : List Nat) :
    ∀ l : List Nat, fs.Nodup → (∀ f ∈ fs, f ∉ l) →
      unpinAll ⟨l⟩ fs = ⟨fs.reverse ++ l⟩ := by
  induction fs with
  | nil => intro l _ _; simp [unpinAll]
  | cons f rest ih =>
    intro l hnd hdis
    have hstep : LRUReplacer.Unpin ⟨l⟩ f = ⟨f :: l⟩ := by
      simp [LRUReplacer.Unpin, hdis f (by simp)]
    show (f :: rest).foldl LRUReplacer.Unpin ⟨l⟩ = _
    rw [List.foldl_cons, hstep]
    have hrec := ih (f :: l) (List.Nodup.of_cons hnd) ?_
    · rw [show rest.foldl LRUReplacer.Unpin ⟨f :: l⟩ = unpinAll ⟨f :: l⟩ rest from rfl, hrec]
      simp
    · intro g hg
      simp only [List.mem_cons]
      push_neg
      refine ⟨?_, hdis g (by simp [hg])⟩
      intro hgf
      subst hgf
      exact absurd hg (List.nodup_cons.mp hnd).1

theorem victimSeqAux_reverse :
    ∀ (n : Nat) (l : List Nat), l.length ≤ n → victimSeqAux n ⟨l⟩ = l.reverse := by
  intro n
  induction n with
  | zero =>
    intro l h
    have : l = [] := List.length_eq_zero.mp (Nat.le_zero.mp h)
    subst this
    rfl
  | succ n ih =>
    intro l h
    induction l using List.reverseRecOn with
    | nil => rfl
    | append_singleton xs x _ =>
      show victimSeqAux (n + 1) ⟨xs ++ [x]⟩ = _
      simp only [victimSeqAux, LRUReplacer.Victim, List.getLast?_concat, List.dropLast_concat]
      rw [ih xs (by simpa using Nat.le_of_succ_le_succ (by simpa using h))]
      simp

/-- C5.  The replacer obeys the stated LRU discipline: from an empty
replacer, unpinning distinct frames f1,...,fn in that order makes
successive `Victim` calls return f1,...,fn in that order; each `Victim`
removes the returned frame and shrinks `Size` by one; `Unpin` of an
already-tracked frame is a no-op; `Pin(f)` removes `f` from tracking if
present; and `Victim` fails exactly when nothing is tracked. -/
theorem c5_lru_replacer :
    (∀ fs : List Nat, fs.Nodup → victimSeq (unpinAll emptyReplacer fs) = fs) ∧
    (∀ (r : LRUReplacer) (f : Nat) (r' : LRUReplacer), r.Victim = some (f, r') →
      r'.Size + 1 = r.Size ∧ (r.frames.Nodup → f ∉ r'.frames)) ∧
    (∀ (r : LRUReplacer) (f : Nat), f ∈ r.frames → r.Unpin f = r) ∧
    (∀ (r : LRUReplacer) (f : Nat), (r.Pin f).frames = r.frames.erase f ∧
      (r.frames.Nodup → f ∉ (r.Pin f).frames)) ∧
    (∀ r : LRUReplacer, r.Victim = none ↔ r.frames = []) := by
  refine ⟨?_, ?_, ?_, ?_, ?_⟩
  · intro fs hnd
    rw [show emptyReplacer = (⟨[]⟩ : LRUReplacer) from rfl,
        unpinAll_frames fs [] hnd (by simp)]
    unfold victimSeq
    rw [victimSeqAux_reverse _ _ (by simp)]
    simp
  · intro r f r' h
    unfold LRUReplacer.Victim at h
    rcases hl : r.frames.getLast? with _ | g
    · rw [hl] at h; cases h
    · rw [hl] at h
      injection h with h
      have hf : g = f := congrArg Prod.fst h
      have hr' : r' = ⟨r.frames.dropLast⟩ := (congrArg Prod.snd h).symm
      subst hf
      have hne : r.frames ≠ [] := by
        intro hnil; rw [hnil] at hl; cases hl
      constructor
      · rw [hr']
        show r.frames.dropLast.length + 1 = r.frames.length
        rw [List.length_dropLast]
        have := List.length_pos.mpr hne
        omega
      · intro hnd
        rw [hr']
        show g ∉ r.frames.dropLast
        have hdec : r.frames = r.frames.dropLast ++ [r.frames.getLast hne] :=
          (List.dropLast_append_getLast hne).symm
        have hg : r.frames.getLast hne = g := by
          have := List.getLast?_eq_getLast r.frames hne
          rw [hl] at this
          exact (Option.some_injective _ this).symm
        rw [hdec, List.nodup_append] at hnd
        intro hmem
        exact hnd.2.2 hmem (by simp [hg])
  · intro r f h
    unfold LRUReplacer.Unpin
    rw [if_pos h]
  · intro r f
    unfold LRUReplacer.Pin
    by_cases h : f ∈ r.frames
    · rw [if_pos h]
      refine ⟨rfl, ?_⟩
      intro hnd hmem
      exact absurd ((List.Nodup.mem_erase_iff hnd).mp hmem).1 (by simp)
    · rw [if_neg h]
      exact ⟨(List.erase_of_not_mem h).symm, fun _ => h⟩
  · intro r
    unfold LRUReplacer.Victim
    rcases hl : r.frames.getLast? with _ | g
    · simp only [true_iff]
      rcases hfr : r.frames with _ | ⟨a, as⟩
      · rfl
      · rw [hfr] at hl
        have : (a :: as).getLast? ≠ none := by
          rw [List.getLast?_eq_getLast _ (by simp)]
          simp
        exact absurd hl this
    · constructor
      · intro hcon; cases hcon
      · intro hnil
        rw [hnil] at hl
        cases hl

/-- Witness for C5: unpinning 1..5 then draining returns 1..5 in order,
and `Unpin(5)` with 5 already tracked is a no-op. -/
theorem c5_lru_replacer_witness :
    victimSeq (unpinAll emptyReplacer [1, 2, 3, 4, 5]) = [1, 2, 3, 4, 5] ∧
    LRUReplacer.Unpin ⟨[5, 4, 3, 2, 1]⟩ 5 = ⟨[5, 4, 3, 2, 1]⟩ ∧
    (LRUReplacer.Pin ⟨[5, 4, 3, 2, 1]⟩ 3).frames = [5, 4, 2, 1] := by
  refine ⟨c5_lru_replacer.1 [1, 2, 3, 4, 5] (by decide),
          c5_lru_replacer.2.2.1 ⟨[5, 4, 3, 2, 1]⟩ 5 (by decide), ?_⟩
  rw [(c5_lru_replacer.2.2.2.1 ⟨[5, 4, 3, 2, 1]⟩ 3).1]
  decide

end LRUClaims

/-! ## Directory-loop lemmas -/

section DirLemmas

@[simp] theorem gd_SetLocalDepth (d : Directory) (i v : Nat) :
    (d.SetLocalDepth i v).globalDepth = d.globalDepth := rfl

@[simp] theorem gd_SetBucketPageId (d : Directory) (i pid : Nat) :
    (d.SetBucketPageId i pid).globalDepth = d.globalDepth := rfl

@[simp] theorem gd_IncrLocalDepth (d : Directory) (i : Nat) :
    (d.IncrLocalDepth i).globalDepth = d.globalDepth := rfl

@[simp] theorem gd_DecrGlobalDepth (d : Directory) :
    d.DecrGlobalDepth.globalDepth = d.globalDepth - 1 := rfl

@[simp] theorem gd_IncrGlobalDepth (d : Directory) :
    d.IncrGlobalDepth.globalDepth = d.globalDepth + 1 := rfl

theorem forDownAux_gd (diff : Nat) (f : Nat → Directory → Directory)
    (hf : ∀ i d, (f i d).globalDepth = d.globalDepth) :
    ∀ (fuel i : Nat) (d : Directory),
      (forDownAux diff f fuel i d).globalDepth = d.globalDepth := by
  intro fuel
  induction fuel with
  | zero => intro i d; rfl
  | succ n ih =>
    intro i d
    show (if 0 < diff ∧ diff ≤ i then forDownAux diff f n (i - diff) (f i d) else d).globalDepth
      = d.globalDepth
    by_cases h : 0 < diff ∧ diff ≤ i
    · rw [if_pos h, ih, hf]
    · rw [if_neg h]

theorem forUpAux_gd (diff size : Nat) (f : Nat → Directory → Directory)
    (hf : ∀ i d, (f i d).globalDepth = d.globalDepth) :
    ∀ (fuel i : Nat) (d : Directory),
      (forUpAux diff size f fuel i d).globalDepth = d.globalDepth := by
  intro fuel
  induction fuel with
  | zero => intro i d; rfl
  | succ n ih =>
    intro i d
    show (if 0 < diff ∧ i < size then forUpAux diff size f n (i + diff) (f i d) else d).globalDepth
      = d.globalDepth
    by_cases h : 0 < diff ∧ i < size
    · rw [if_pos h, ih, hf]
    · rw [if_neg h]

theorem shrinkAux_gd_le : ∀ (fuel : Nat) (d : Directory),
    (shrinkAux fuel d).globalDepth ≤ d.globalDepth := by
  intro fuel
  induction fuel with
  | zero => intro d; exact Nat.le_refl _
  | succ n ih =>
    intro d
    show (if d.CanShrink then shrinkAux n d.DecrGlobalDepth else d).globalDepth ≤ d.globalDepth
    by_cases h : d.CanShrink
    · rw [if_pos h]
      calc (shrinkAux n d.DecrGlobalDepth).globalDepth
          ≤ d.DecrGlobalDepth.globalDepth := ih _
        _ ≤ d.globalDepth := by simp
    · rw [if_neg h]

theorem shrinkAux_fields : ∀ (fuel : Nat) (d : Directory),
    (shrinkAux fuel d).localDepths = d.localDepths ∧
    (shrinkAux fuel d).bucketPageIds = d.bucketPageIds := by
  intro fuel
  induction fuel with
  | zero => intro d; exact ⟨rfl, rfl⟩
  | succ n ih =>
    intro d
    by_cases h : d.CanShrink
    · simp only [shrinkAux, h, if_true]
      exact ih _
    · simp only [shrinkAux, h, Bool.false_eq_true, if_false]
      exact ⟨trivial, trivial⟩

theorem canShrink_pos (d : Directory) (h : d.CanShrink = true) : 0 < d.globalDepth := by
  unfold Directory.CanShrink at h
  rw [decide_eq_true_eq] at h
  have h0 := h 0 (by
    unfold Directory.Size
    rw [Nat.one_shiftLeft]
    exact Nat.pos_pow_of_pos _ (by omega))
  omega

theorem shrinkAux_lt (fuel : Nat) (d : Directory) (h : d.CanShrink = true)
    (hfuel : 1 ≤ fuel) : (shrinkAux fuel d).globalDepth < d.globalDepth := by
  rcases fuel with _ | n
  · omega
  · show (if d.CanShrink then shrinkAux n d.DecrGlobalDepth else d).globalDepth < d.globalDepth
    rw [if_pos h]
    have h1 := shrinkAux_gd_le n d.DecrGlobalDepth
    have h2 := canShrink_pos d h
    simp at h1
    omega

/-- `List.foldl` over directory rewrites that never change the global
depth preserves the global depth. -/
theorem foldl_gd (body : Directory → Nat → Directory)
    (hf : ∀ d i, (body d i).globalDepth = d.globalDepth) :
    ∀ (L : List Nat) (d : Directory), (L.foldl body d).globalDepth = d.globalDepth := by
  intro L
  induction L with
  | nil => intro d; rfl
  | cons i rest ih => intro d; rw [List.foldl_cons, ih, hf]

theorem mergeRewrite_gd (cm sm ao nd pid size : Nat) (d : Directory) :
    (mergeRewrite cm sm ao nd pid size d).globalDepth = d.globalDepth := by
  unfold mergeRewrite
  apply foldl_gd
  intro d i
  by_cases hc1 : (i ^^^ cm) &&& ao = 0
  · rw [if_pos hc1]; rfl
  · rw [if_neg hc1]
    by_cases hc2 : (i ^^^ sm) &&& ao = 0
    · rw [if_pos hc2]; rfl
    · rw [if_neg hc2]

end DirLemmas

/-! ## Global-depth bound and claim C6 -/

section C6Claims

variable {K V : Type} [DecidableEq K] [DecidableEq V] [Inhabited K] [Inhabited V]
variable (hashFn : K → Nat) (B : Nat)

theorem splitInsertGo_gd_le (next : HTState K V → K → V → OpOut K V)
    (hnext : ∀ st k v, st.dir.globalDepth ≤ 9 → (next st k v).st.dir.globalDepth ≤ 9)
    (st : HTState K V) (k : K) (v : V) (h : st.dir.globalDepth ≤ 9) :
    (EHT.SplitInsertGo hashFn B next st k v).st.dir.globalDepth ≤ 9 := by
  unfold EHT.SplitInsertGo
  by_cases hld : st.dir.localDepths (EHT.KeyToDirectoryIndex hashFn st k) ≥ 9
  · rw [if_pos hld]
    exact h
  · rw [if_neg hld]
    by_cases hfull : ¬ (st.pages (EHT.KeyToPageId hashFn st k)).IsFull
    · rw [if_pos hfull]
      exact hnext st k v h
    · rw [if_neg hfull]
      refine hnext _ _ _ ?_
      simp only [forUp, forDown]
      rw [forUpAux_gd _ _ _ (fun i d => by simp),
          forDownAux_gd _ _ (fun i d => by simp),
          forUpAux_gd _ _ _ (fun i d => by simp),
          forDownAux_gd _ _ (fun i d => by simp),
          gd_SetBucketPageId]
      by_cases hincr : st.dir.localDepths (EHT.KeyToDirectoryIndex hashFn st k)
          ≥ (st.dir.IncrLocalDepth (EHT.KeyToDirectoryIndex hashFn st k)).globalDepth
      · rw [if_pos hincr]
        rw [gd_IncrGlobalDepth, gd_IncrLocalDepth]
        rw [gd_IncrLocalDepth] at hincr
        omega
      · rw [if_neg hincr, gd_IncrLocalDepth]
        exact h

theorem insert_gd_le : ∀ (fuel : Nat) (st : HTState K V) (k : K) (v : V),
    st.dir.globalDepth ≤ 9 → (EHT.Insert hashFn B fuel st k v).st.dir.globalDepth ≤ 9 := by
  intro fuel
  induction fuel with
  | zero => intro st k v h; exact h
  | succ n ih =>
    intro st k v h
    show (if _ then _ else _ : OpOut K V).st.dir.globalDepth ≤ 9
    by_cases hfull :
        ¬ (st.pages (st.dir.bucketPageIds (EHT.KeyToDirectoryIndex hashFn st k))).IsFull
    · rw [if_pos hfull]
      exact h
    · rw [if_neg hfull]
      show (EHT.SplitInsertGo hashFn B (EHT.Insert hashFn B n) st k v).st.dir.globalDepth ≤ 9
      exact splitInsertGo_gd_le hashFn B _ (fun st' k' v' h' => ih st' k' v' h') st k v h

theorem merge_gd_le (st : HTState K V) (k : K) (v : V)
    (h : st.dir.globalDepth ≤ 9) :
    (EHT.Merge hashFn B st k v).1.dir.globalDepth ≤ 9 := by
  unfold EHT.Merge
  by_cases h1 : EHT.KeyToDirectoryIndex hashFn st k ≥ st.dir.Size
  · rw [if_pos h1]; exact h
  · rw [if_neg h1]
    by_cases h2 : st.dir.localDepths (EHT.KeyToDirectoryIndex hashFn st k) = 0
    · rw [if_pos h2]; exact h
    · rw [if_neg h2]
      by_cases h3 : st.dir.localDepths (EHT.KeyToDirectoryIndex hashFn st k) ≠
          st.dir.localDepths (st.dir.GetSplitImageIndex (EHT.KeyToDirectoryIndex hashFn st k))
      · rw [if_pos h3]; exact h
      · rw [if_neg h3]
        by_cases h4 : ¬ (st.pages (st.dir.bucketPageIds
            (EHT.KeyToDirectoryIndex hashFn st k))).IsEmpty
        · rw [if_pos h4]; exact h
        · rw [if_neg h4]
          show (shrinkLoop _).globalDepth ≤ 9
          unfold shrinkLoop
          refine Nat.le_trans (shrinkAux_gd_le _ _) ?_
          rw [mergeRewrite_gd]
          exact h

theorem remove_gd_le (st : HTState K V) (k : K) (v : V)
    (h : st.dir.globalDepth ≤ 9) :
    (EHT.Remove hashFn B st k v).st.dir.globalDepth ≤ 9 := by
  unfold EHT.Remove
  by_cases hemp : ((st.pages (EHT.KeyToPageId hashFn st k)).Remove B k v).2.IsEmpty
  · rw [if_pos hemp]
    exact merge_gd_le hashFn B _ k v h
  · rw [if_neg hemp]
    exact h

/-- C6.  If the local depth at the key's directory index is already at
`MAX_GLOBAL_DEPTH` (9) and the bucket is full, `Insert` reaches
`SplitInsert`, which returns false leaving the state — directory and all
bucket pages, hence all stored mappings — unchanged; and the global depth
never exceeds 9 in any reachable state. -/
theorem c6_depth_limit :
    (∀ (st : HTState K V) (k : K) (v : V) (fuel : Nat),
      (st.pages (st.dir.bucketPageIds (EHT.KeyToDirectoryIndex hashFn st k))).IsFull = true →
      st.dir.localDepths (EHT.KeyToDirectoryIndex hashFn st k) = 9 →
      (EHT.Insert hashFn B (fuel + 1) st k v).res = false ∧
      (EHT.Insert hashFn B (fuel + 1) st k v).st = st) ∧
    (∀ st : HTState K V, EHT.Reachable hashFn B st → st.dir.globalDepth ≤ 9) := by
  constructor
  · intro st k v fuel hfull hld
    have hsplit : EHT.SplitInsertGo hashFn B (EHT.Insert hashFn B fuel) st k v =
        { res := false, st := st, log := [.fetch dirPageId, .unpin dirPageId], ok := true } := by
      unfold EHT.SplitInsertGo
      rw [if_pos (by omega : st.dir.localDepths (EHT.KeyToDirectoryIndex hashFn st k) ≥ 9)]
    constructor
    · show (if _ then _ else _ : OpOut K V).res = false
      rw [if_neg (by simp [hfull]), hsplit]
    · show (if _ then _ else _ : OpOut K V).st = st
      rw [if_neg (by simp [hfull]), hsplit]
  · intro st hr
    induction hr with
    | init => exact Nat.zero_le _
    | getvalue k _ ih => exact ih
    | insert fuel k v _ ih => exact insert_gd_le hashFn B fuel _ k v ih
    | remove k v _ ih => exact remove_gd_le hashFn B _ k v ih

theorem runTrace_foldl (ks : List Nat) :
    ∀ acc : List Bool × HTState Nat Nat,
      (ks.foldl (fun acc k =>
        let o := EHT.Insert idHash 8 5 acc.2 k k
        (acc.1 ++ [o.res], o.st)) acc).2
      = ks.foldl (fun st k => (EHT.Insert idHash 8 5 st k k).st) acc.2 := by
  induction ks with
  | nil => intro acc; rfl
  | cons k rest ih => intro acc; rw [List.foldl_cons, List.foldl_cons, ih]

theorem runTrace_snd_eq (ks : List Nat) :
    (runTrace ks).2
      = ks.foldl (fun st k => (EHT.Insert idHash 8 5 st k k).st) (EHT.initState 8) := by
  unfold runTrace
  exact runTrace_foldl ks ([], EHT.initState 8)

/-- Every trace state is reachable by public operations. -/
theorem reachable_runTrace (ks : List Nat) : EHT.Reachable idHash 8 (runTrace ks).2 := by
  rw [runTrace_snd_eq]
  induction ks using List.reverseRecOn with
  | nil => exact EHT.Reachable.init
  | append_singleton xs x ihx =>
    rw [List.foldl_concat]
    exact EHT.Reachable.insert 5 x x ihx

/-- Witness for C6: a concrete full-bucket state at local depth 9 on
which `Insert` fails and changes nothing, and a concrete reachable state
(the result of the 22-insert trace) with global depth at most 9. -/
theorem c6_depth_limit_witness :
    (EHT.Insert idHash 8 3 w9state 0 0).res = false ∧
    (EHT.Insert idHash 8 3 w9state 0 0).st = w9state ∧
    (runTrace traceKeys).2.dir.globalDepth ≤ 9 := by
  have h := (c6_depth_limit idHash 8).1 w9state 0 0 2 (by decide) (by decide)
  exact ⟨h.1, h.2, (c6_depth_limit idHash 8).2 _ (reachable_runTrace traceKeys)⟩

end C6Claims

/-! ## Merge characterisation and claim C7 -/

section C7Claims

@[simp] theorem ld_SetLocalDepth (d : Directory) (i v j : Nat) :
    (d.SetLocalDepth i v).localDepths j = if j = i then v else d.localDepths j := rfl

@[simp] theorem pid_SetLocalDepth (d : Directory) (i v j : Nat) :
    (d.SetLocalDepth i v).bucketPageIds j = d.bucketPageIds j := rfl

@[simp] theorem ld_SetBucketPageId (d : Directory) (i p j : Nat) :
    (d.SetBucketPageId i p).localDepths j = d.localDepths j := rfl

@[simp] theorem pid_SetBucketPageId (d : Directory) (i p j : Nat) :
    (d.SetBucketPageId i p).bucketPageIds j = if j = i then p else d.bucketPageIds j := rfl

theorem xor_and_eq_zero_iff (a b m : Nat) : (a ^^^ b) &&& m = 0 ↔ a &&& m = b &&& m := by
  constructor
  · intro h
    apply Nat.eq_of_testBit_eq
    intro n
    have hbit : ((a ^^^ b) &&& m).testBit n = false := by rw [h]; exact Nat.zero_testBit n
    rw [Nat.testBit_and, Nat.testBit_xor] at hbit
    rw [Nat.testBit_and, Nat.testBit_and]
    rcases hm : m.testBit n with _ | _
    · simp
    · rw [hm] at hbit
      simp only [Bool.and_true] at hbit ⊢
      rcases ha : a.testBit n <;> rcases hb : b.testBit n <;>
        simp [ha, hb] at hbit ⊢
  · intro h
    apply Nat.eq_of_testBit_eq
    intro n
    have hbit : (a &&& m).testBit n = (b &&& m).testBit n := by rw [h]
    rw [Nat.testBit_and, Nat.testBit_and] at hbit
    rw [Nat.testBit_and, Nat.testBit_xor, Nat.zero_testBit]
    rcases hm : m.testBit n with _ | _
    · simp
    · rw [hm] at hbit
      simp only [Bool.and_true] at hbit
      simp [hbit]

/-- The two rewritten equivalence classes of `Merge` are disjoint: the
origin index and its split image differ at bit `ld - 1`, which the mask
`(1 << ld) - 1` covers. -/
theorem merge_classes_disjoint (i ld : Nat) (h : 0 < ld) :
    i &&& ((1 <<< ld) - 1) ≠ (i ^^^ (1 <<< (ld - 1))) &&& ((1 <<< ld) - 1) := by
  intro hcon
  have hbit := congrArg (fun x => x.testBit (ld - 1)) hcon
  have hlt : ld - 1 < ld := by omega
  simp only [Nat.one_shiftLeft, Nat.testBit_and, Nat.testBit_xor,
    Nat.testBit_two_pow_sub_one, Nat.testBit_two_pow_self] at hbit
  rcases hb : i.testBit (ld - 1) <;> simp [hb, hlt] at hbit

/-- Pointwise local depths after the `Merge` directory rewrite loop. -/
theorem mergeFold_ld (cm sm ao nd pid : Nat) :
    ∀ (L : List Nat) (d : Directory) (j : Nat),
      (L.foldl (fun d i =>
        if (i ^^^ cm) &&& ao = 0 then (d.SetLocalDepth i nd).SetBucketPageId i pid
        else if (i ^^^ sm) &&& ao = 0 then d.SetLocalDepth i nd
        else d) d).localDepths j
      = if j ∈ L ∧ ((j ^^^ cm) &&& ao = 0 ∨ (j ^^^ sm) &&& ao = 0) then nd
        else d.localDepths j := by
  intro L
  induction L with
  | nil => intro d j; simp
  | cons i rest ih =>
    intro d j
    rw [List.foldl_cons, ih]
    by_cases hmem : j ∈ rest ∧ ((j ^^^ cm) &&& ao = 0 ∨ (j ^^^ sm) &&& ao = 0)
    · rw [if_pos hmem, if_pos ⟨List.mem_cons_of_mem i hmem.1, hmem.2⟩]
    · rw [if_neg hmem]
      by_cases hji : j = i
      · subst hji
        by_cases hc1 : (j ^^^ cm) &&& ao = 0
        · rw [if_pos hc1]
          simp [hc1]
        · rw [if_neg hc1]
          by_cases hc2 : (j ^^^ sm) &&& ao = 0
          · rw [if_pos hc2]
            simp [hc2]
          · rw [if_neg hc2, if_neg ?_]
            push_neg
            intro _
            exact ⟨hc1, hc2⟩
      · have hjmem : (j ∈ i :: rest ∧ ((j ^^^ cm) &&& ao = 0 ∨ (j ^^^ sm) &&& ao = 0)) ↔
            (j ∈ rest ∧ ((j ^^^ cm) &&& ao = 0 ∨ (j ^^^ sm) &&& ao = 0)) := by
          constructor
          · rintro ⟨hm, hc⟩
            rcases List.mem_cons.mp hm with h | h
            · exact absurd h hji
            · exact ⟨h, hc⟩
          · rintro ⟨hm, hc⟩
            exact ⟨List.mem_cons_of_mem i hm, hc⟩
        rw [if_neg (fun hh => hmem (hjmem.mp hh))]
        by_cases hc1 : (i ^^^ cm) &&& ao = 0
        · rw [if_pos hc1]
          simp [hji]
        · rw [if_neg hc1]
          by_cases hc2 : (i ^^^ sm) &&& ao = 0
          · rw [if_pos hc2]
            simp [hji]
          · rw [if_neg hc2]

/-- Pointwise bucket page ids after the `Merge` directory rewrite loop. -/
theorem mergeFold_pid (cm sm ao nd pid : Nat) :
    ∀ (L : List Nat) (d : Directory) (j : Nat),
      (L.foldl (fun d i =>
        if (i ^^^ cm) &&& ao = 0 then (d.SetLocalDepth i nd).SetBucketPageId i pid
        else if (i ^^^ sm) &&& ao = 0 then d.SetLocalDepth i nd
        else d) d).bucketPageIds j
      = if j ∈ L ∧ (j ^^^ cm) &&& ao = 0 then pid else d.bucketPageIds j := by
  intro L
  induction L with
  | nil => intro d j; simp
  | cons i rest ih =>
    intro d j
    rw [List.foldl_cons, ih]
    by_cases hmem : j ∈ rest ∧ (j ^^^ cm) &&& ao = 0
    · rw [if_pos hmem, if_pos ⟨List.mem_cons_of_mem i hmem.1, hmem.2⟩]
    · rw [if_neg hmem]
      by_cases hji : j = i
      · subst hji
        by_cases hc1 : (j ^^^ cm) &&& ao = 0
        · rw [if_pos hc1]
          simp [hc1]
        · rw [if_neg hc1]
          by_cases hc2 : (j ^^^ sm) &&& ao = 0
          · rw [if_pos hc2, if_neg (fun hh => hc1 hh.2)]
            simp
          · rw [if_neg hc2, if_neg (fun hh => hc1 hh.2)]
      · have hjmem : (j ∈ i :: rest ∧ (j ^^^ cm) &&& ao = 0) ↔
            (j ∈ rest ∧ (j ^^^ cm) &&& ao = 0) := by
          constructor
          · rintro ⟨hm, hc⟩
            rcases List.mem_cons.mp hm with h | h
            · exact absurd h hji
            · exact ⟨h, hc⟩
          · rintro ⟨hm, hc⟩
            exact ⟨List.mem_cons_of_mem i hm, hc⟩
        rw [if_neg (fun hh => hmem (hjmem.mp hh))]
        by_cases hc1 : (i ^^^ cm) &&& ao = 0
        · rw [if_pos hc1]
          simp [hji]
        · rw [if_neg hc1]
          by_cases hc2 : (i ^^^ sm) &&& ao = 0
          · rw [if_pos hc2]
            simp
          · rw [if_neg hc2]

variable {K V : Type} [DecidableEq K] [DecidableEq V] [Inhabited K] [Inhabited V]
variable (hashFn : K → Nat) (B : Nat)

/-- The key's directory index is always below the directory size. -/
theorem dirIndex_lt_size (st : HTState K V) (k : K) :
    EHT.KeyToDirectoryIndex hashFn st k < st.dir.Size := by
  unfold EHT.KeyToDirectoryIndex Directory.GetGlobalDepthMask Directory.Size
  have hle : EHT.HashOf hashFn k &&& (1 <<< st.dir.globalDepth - 1)
      ≤ 1 <<< st.dir.globalDepth - 1 := Nat.and_le_right
  have hpos : 0 < 1 <<< st.dir.globalDepth := by
    rw [Nat.one_shiftLeft]
    exact Nat.pos_pow_of_pos _ (by omega)
  omega

/-- Pointwise local depths of the `Merge` rewrite. -/
theorem mergeRewrite_localDepths (cm sm ao nd pid size : Nat) (d : Directory) (j : Nat) :
    (mergeRewrite cm sm ao nd pid size d).localDepths j
    = if j < size ∧ ((j ^^^ cm) &&& ao = 0 ∨ (j ^^^ sm) &&& ao = 0) then nd
      else d.localDepths j := by
  unfold mergeRewrite
  rw [mergeFold_ld]
  simp only [List.mem_range]

/-- Pointwise bucket page ids of the `Merge` rewrite. -/
theorem mergeRewrite_bucketPageIds (cm sm ao nd pid size : Nat) (d : Directory) (j : Nat) :
    (mergeRewrite cm sm ao nd pid size d).bucketPageIds j
    = if j < size ∧ (j ^^^ cm) &&& ao = 0 then pid else d.bucketPageIds j := by
  unfold mergeRewrite
  rw [mergeFold_pid]
  simp only [List.mem_range]

/-- `(a ^ (b & m)) & m = 0` says exactly that `a` and `b` agree under the
mask `m`. -/
theorem xor_mask_eq_iff (a b m : Nat) : (a ^^^ (b &&& m)) &&& m = 0 ↔ a &&& m = b &&& m := by
  rw [xor_and_eq_zero_iff, Nat.and_assoc, Nat.and_self]

/-- C7.  When `Merge` proceeds past its guards (local depth positive and
equal to the split image's, bucket at the key's index empty), every
directory index in the origin's equivalence class points to the sibling's
bucket page id with local depth `ld - 1`, every index in the split
image's class keeps its page id with local depth `ld - 1`, and the global
depth is decremented whenever every rewritten local depth is strictly
below it. -/
theorem c7_merge_directory (st : HTState K V) (k : K) (v : V) (i ld s : Nat)
    (hi : i = EHT.KeyToDirectoryIndex hashFn st k)
    (hld : ld = st.dir.localDepths i)
    (hs : s = st.dir.GetSplitImageIndex i)
    (hpos : 0 < ld) (heq : st.dir.localDepths s = ld)
    (hemp : (st.pages (st.dir.bucketPageIds i)).IsEmpty = true) :
    (∀ j < st.dir.Size, j &&& ((1 <<< ld) - 1) = i &&& ((1 <<< ld) - 1) →
      (EHT.Merge hashFn B st k v).1.dir.bucketPageIds j = st.dir.bucketPageIds s ∧
      (EHT.Merge hashFn B st k v).1.dir.localDepths j = ld - 1) ∧
    (∀ j < st.dir.Size, j &&& ((1 <<< ld) - 1) = s &&& ((1 <<< ld) - 1) →
      (EHT.Merge hashFn B st k v).1.dir.bucketPageIds j = st.dir.bucketPageIds j ∧
      (EHT.Merge hashFn B st k v).1.dir.localDepths j = ld - 1) ∧
    ((∀ j < st.dir.Size,
        (if j &&& ((1 <<< ld) - 1) = i &&& ((1 <<< ld) - 1)
            ∨ j &&& ((1 <<< ld) - 1) = s &&& ((1 <<< ld) - 1)
         then ld - 1 else st.dir.localDepths j) < st.dir.globalDepth) →
      (EHT.Merge hashFn B st k v).1.dir.globalDepth < st.dir.globalDepth) := by
  subst hi
  subst hld
  subst hs
  have g1 : ¬ EHT.KeyToDirectoryIndex hashFn st k ≥ st.dir.Size := by
    have := dirIndex_lt_size hashFn st k
    omega
  have g2 : ¬ st.dir.localDepths (EHT.KeyToDirectoryIndex hashFn st k) = 0 := by omega
  have g3 : ¬ st.dir.localDepths (EHT.KeyToDirectoryIndex hashFn st k) ≠
      st.dir.localDepths (st.dir.GetSplitImageIndex (EHT.KeyToDirectoryIndex hashFn st k)) :=
    fun hne => hne heq.symm
  have g4 : ¬ ¬ (st.pages (st.dir.bucketPageIds
      (EHT.KeyToDirectoryIndex hashFn st k))).IsEmpty = true := by simp [hemp]
  have hdir : (EHT.Merge hashFn B st k v).1.dir =
      shrinkLoop (mergeRewrite
        (EHT.KeyToDirectoryIndex hashFn st k &&&
          ((1 <<< st.dir.localDepths (EHT.KeyToDirectoryIndex hashFn st k)) - 1))
        (st.dir.GetSplitImageIndex (EHT.KeyToDirectoryIndex hashFn st k) &&&
          ((1 <<< st.dir.localDepths (EHT.KeyToDirectoryIndex hashFn st k)) - 1))
        ((1 <<< st.dir.localDepths (EHT.KeyToDirectoryIndex hashFn st k)) - 1)
        (st.dir.localDepths (EHT.KeyToDirectoryIndex hashFn st k) - 1)
        (st.dir.bucketPageIds (st.dir.GetSplitImageIndex (EHT.KeyToDirectoryIndex hashFn st k)))
        st.dir.Size st.dir) := by
    unfold EHT.Merge
    rw [if_neg g1, if_neg g2, if_neg g3, if_neg g4]
  have hdisj : EHT.KeyToDirectoryIndex hashFn st k &&&
      ((1 <<< st.dir.localDepths (EHT.KeyToDirectoryIndex hashFn st k)) - 1) ≠
      st.dir.GetSplitImageIndex (EHT.KeyToDirectoryIndex hashFn st k) &&&
        ((1 <<< st.dir.localDepths (EHT.KeyToDirectoryIndex hashFn st k)) - 1) := by
    unfold Directory.GetSplitImageIndex
    exact merge_classes_disjoint _ _ hpos
  refine ⟨?_, ?_, ?_⟩
  · intro j hj hcls
    constructor
    · rw [hdir]
      unfold shrinkLoop
      rw [(shrinkAux_fields _ _).2, mergeRewrite_bucketPageIds,
        if_pos ⟨hj, (xor_mask_eq_iff j _ _).mpr hcls⟩]
    · rw [hdir]
      unfold shrinkLoop
      rw [(shrinkAux_fields _ _).1, mergeRewrite_localDepths,
        if_pos ⟨hj, Or.inl ((xor_mask_eq_iff j _ _).mpr hcls)⟩]
  · intro j hj hcls
    constructor
    · rw [hdir]
      unfold shrinkLoop
      rw [(shrinkAux_fields _ _).2, mergeRewrite_bucketPageIds, if_neg ?_]
      rintro ⟨_, hA⟩
      exact hdisj (((xor_mask_eq_iff j _ _).mp hA).symm.trans hcls)
    · rw [hdir]
      unfold shrinkLoop
      rw [(shrinkAux_fields _ _).1, mergeRewrite_localDepths,
        if_pos ⟨hj, Or.inr ((xor_mask_eq_iff j _ _).mpr hcls)⟩]
  · intro hall
    rw [hdir]
    unfold shrinkLoop
    refine Nat.lt_of_lt_of_le (shrinkAux_lt _ _ ?_ (by omega)) (Nat.le_of_eq ?_)
    · unfold Directory.CanShrink
      rw [decide_eq_true_eq]
      intro j hj
      unfold Directory.Size at hj
      rw [mergeRewrite_gd] at hj
      have hjlt : j < st.dir.Size := hj
      rw [mergeRewrite_localDepths, mergeRewrite_gd]
      have hhall := hall j hjlt
      by_cases hc : (j ^^^ (EHT.KeyToDirectoryIndex hashFn st k &&&
          ((1 <<< st.dir.localDepths (EHT.KeyToDirectoryIndex hashFn st k)) - 1))) &&&
          ((1 <<< st.dir.localDepths (EHT.KeyToDirectoryIndex hashFn st k)) - 1) = 0 ∨
          (j ^^^ (st.dir.GetSplitImageIndex (EHT.KeyToDirectoryIndex hashFn st k) &&&
          ((1 <<< st.dir.localDepths (EHT.KeyToDirectoryIndex hashFn st k)) - 1))) &&&
          ((1 <<< st.dir.localDepths (EHT.KeyToDirectoryIndex hashFn st k)) - 1) = 0
      · rw [if_pos ⟨hjlt, hc⟩]
        rw [if_pos (by
          rcases hc with hc | hc
          · exact Or.inl ((xor_mask_eq_iff j _ _).mp hc)
          · exact Or.inr ((xor_mask_eq_iff j _ _).mp hc))] at hhall
        exact hhall
      · rw [if_neg (fun hh => hc hh.2)]
        rw [if_neg (by
          push_neg at hc ⊢
          exact ⟨fun hh => hc.1 ((xor_mask_eq_iff j _ _).mpr hh),
                 fun hh => hc.2 ((xor_mask_eq_iff j _ _).mpr hh)⟩)] at hhall
        exact hhall
    · exact mergeRewrite_gd _ _ _ _ _ _ _

/-- Witness for C7 at a concrete state: merging key 0 in the two-entry
directory redirects entry 0 to the sibling's page 2, drops both local
depths to 0 and shrinks the global depth below 1. -/
theorem c7_merge_directory_witness :
    (EHT.Merge idHash 8 wmergeState 0 0).1.dir.bucketPageIds 0 = 2 ∧
    (EHT.Merge idHash 8 wmergeState 0 0).1.dir.localDepths 0 = 0 ∧
    (EHT.Merge idHash 8 wmergeState 0 0).1.dir.localDepths 1 = 0 ∧
    (EHT.Merge idHash 8 wmergeState 0 0).1.dir.globalDepth < 1 := by
  have h := c7_merge_directory idHash 8 wmergeState 0 0 0 1 1 (by decide) (by decide)
    (by decide) (by decide) (by decide) (by decide)
  have h1 := h.1 0 (by decide) (by decide)
  have h2 := h.2.1 1 (by decide) (by decide)
  have h3 := h.2.2 (by decide)
  exact ⟨by rw [h1.1]; decide, h1.2, h2.2, h3⟩

/-! ## Claim C8: redistribution classes, and the failing in-code assertion -/

section C8Claims

variable {K V : Type} [DecidableEq K] [DecidableEq V] [Inhabited K] [Inhabited V]

/-- C8 (amended).  Under the entry invariant — every live mapping of the
origin bucket has a hash agreeing with the origin index on the low `ld`
bits — each mapping rehashes, at the post-split global mask, to a
directory index whose low `ld + 1` bits agree with the origin index or
with its split image.  (The in-code assertion instead compares the full
directory indices and can fail; see the counterexample.) -/
theorem c8_redistribution_classes (hashFn : K → Nat) (d : Directory) (i ld : Nat) (key : K)
    (hld : d.localDepths i = ld + 1)
    (hgd : ld + 1 ≤ d.globalDepth)
    (hsuffix : EHT.HashOf hashFn key &&& ((1 <<< ld) - 1) = i &&& ((1 <<< ld) - 1)) :
    (EHT.HashOf hashFn key &&& d.GetGlobalDepthMask) &&& ((1 <<< (ld + 1)) - 1)
        = i &&& ((1 <<< (ld + 1)) - 1) ∨
    (EHT.HashOf hashFn key &&& d.GetGlobalDepthMask) &&& ((1 <<< (ld + 1)) - 1)
        = d.GetSplitImageIndex i &&& ((1 <<< (ld + 1)) - 1) := by
  have hbits : ∀ n, n < ld → (EHT.HashOf hashFn key).testBit n = i.testBit n := by
    intro n hn
    have hh := congrArg (fun x => x.testBit n) hsuffix
    simp only [Nat.one_shiftLeft, Nat.testBit_and, Nat.testBit_two_pow_sub_one] at hh
    simpa [hn] using hh
  have hsplit : d.GetSplitImageIndex i = i ^^^ (1 <<< ld) := by
    unfold Directory.GetSplitImageIndex
    rw [hld]
    simp
  by_cases hbit : (EHT.HashOf hashFn key).testBit ld = i.testBit ld
  · left
    apply Nat.eq_of_testBit_eq
    intro n
    unfold Directory.GetGlobalDepthMask
    simp only [Nat.one_shiftLeft, Nat.testBit_and, Nat.testBit_two_pow_sub_one]
    by_cases hn : n < ld + 1
    · have hng : n < d.globalDepth := by omega
      rcases Nat.lt_or_ge n ld with hnl | hnl
      · simp [hn, hng, hbits n hnl]
      · have hnld : n = ld := by omega
        subst hnld
        simp [hn, hng, hbit]
    · simp [hn]
  · right
    rw [hsplit]
    apply Nat.eq_of_testBit_eq
    intro n
    unfold Directory.GetGlobalDepthMask
    simp only [Nat.one_shiftLeft, Nat.testBit_and, Nat.testBit_xor,
      Nat.testBit_two_pow_sub_one, Nat.testBit_two_pow]
    by_cases hn : n < ld + 1
    · have hng : n < d.globalDepth := by omega
      rcases Nat.lt_or_ge n ld with hnl | hnl
      · have hne : ld ≠ n := by omega
        simp [hn, hng, hbits n hnl, hne]
      · have hnld : n = ld := by omega
        subst hnld
        rcases hi : i.testBit n with _ | _ <;>
          rcases hk : (EHT.HashOf hashFn key).testBit n with _ | _ <;>
            simp [hi, hk, hn, hng] <;> simp [hi, hk] at hbit
    · simp [hn]

/-- Witness for the amended C8 at concrete values: key 1 under the split
of directory index 5 at new local depth 2 lands in the class of 5 or of
its split image 7. -/
theorem c8_redistribution_classes_witness :
    (EHT.HashOf idHash 1 &&& wdir8.GetGlobalDepthMask) &&& ((1 <<< (1 + 1)) - 1)
        = 5 &&& ((1 <<< (1 + 1)) - 1) ∨
    (EHT.HashOf idHash 1 &&& wdir8.GetGlobalDepthMask) &&& ((1 <<< (1 + 1)) - 1)
        = wdir8.GetSplitImageIndex 5 &&& ((1 <<< (1 + 1)) - 1) :=
  c8_redistribution_classes idHash wdir8 5 1 1 (by decide) (by decide) (by decide)

/-- Counterexample for C8 as stated: on the reachable trace state, the
split triggered by inserting key 13 copies out a mapping (key 1) whose
rehashed directory index (1) differs from both the origin index (5) and
the split image (7), so the in-code assertion
`new_bucket_id == origin_bucket_id || new_bucket_id == split_bucket_id`
fails (the `ok` flag records exactly these assertion conditions). -/
theorem c8_assert_fails_counterexample :
    (EHT.Insert idHash 8 5 preSplitState 13 13).ok = false := by decide

end C8Claims

end C7Claims

/-! ## Claims C1, C2 and C9: concrete failing executions -/

section TraceClaims

set_option maxRecDepth 80000

/-- C1 fails on the code.  Every insert of the 22-key trace returns true
— in particular `Insert(1, 1)` — and no `Remove` is ever executed, yet
`GetValue(1)` on the final state returns false and appends nothing: the
split triggered by inserting key 13 (origin index 5, new local depth
2 < global depth 3) drops the mappings whose rehashed directory index is
neither the origin nor the split image. -/
theorem c1_roundtrip_violated :
    (runTrace traceKeys).1 = List.replicate 22 true ∧
    (EHT.GetValue idHash 8 (runTrace traceKeys).2 1).1.res = false ∧
    (EHT.GetValue idHash 8 (runTrace traceKeys).2 1).2 = [] := by
  refine ⟨by decide, by decide, by decide⟩

/-- C2 fails on the code.  The reachable state before the last trace
insert satisfies the directory integrity invariant, but the single public
`Insert(13, 13)` breaks it: `SplitInsert`'s rewrite loops
(`for (i = origin; i >= diff; i -= diff)` / `i += diff`) never touch the
class member below `diff`, leaving entries 1 and 3 at stale local depth 1
while their class mates 5 and 7 move to depth 2 with a new page id. -/
theorem c2_integrity_violated :
    EHT.Reachable idHash 8 preSplitState ∧
    DirIntegrity preSplitState.dir ∧
    ¬ DirIntegrity (EHT.Insert idHash 8 5 preSplitState 13 13).st.dir := by
  refine ⟨reachable_runTrace (traceKeys.take 21), by decide, by decide⟩

/-- C9 fails on the code.  `SplitInsert` on a state whose target bucket
is not full (the retry path taken after a racing remove) fetches the
directory page and the origin bucket page but unpins only the directory
before retrying `Insert`: over the whole call, page 1 is fetched twice
and unpinned once, so the operation completes holding a pin. -/
theorem c9_pin_leak :
    fetchCount (EHT.SplitInsert idHash 8 3 (EHT.initState 8 : HTState Nat Nat) 0 0).log 1 = 2 ∧
    unpinCount (EHT.SplitInsert idHash 8 3 (EHT.initState 8 : HTState Nat Nat) 0 0).log 1 = 1 := by
  exact ⟨by decide, by decide⟩

end TraceClaims

end Bustub
